import Mathlib

/-!
Shallow embedding of the rmcg123/eu_emissions_analysis_2022 repository.

The repository is a pandas/matplotlib pipeline.  The functions below translate
the relevant source functions into executable Lean definitions:

* `plot_stacked_barplot` (src/eu_emissions_functions.py, lines 56-254) is
  modelled as a function from an in-memory table (a list of rows) to a
  deterministic layout descriptor, returned inside `Except` so that the two
  runtime failures of the Python code (a `KeyError` from a palette dictionary
  lookup and an `IndexError` from indexing an empty `group_locs` list) are
  explicit values.
* `create_emissions_per_capita` and the share-mode pre-step of
  `create_emissions_by_gas` (src/eu_emissions_main.py) are modelled as pure
  table transformations.

Floats are modelled as exact rationals (`ℚ`); a pandas missing value (`NaN`)
is modelled as `Option.none`.  Pandas aggregation conventions are reproduced:
`groupby` (with its default `sort=True`) lists group keys in ascending order,
`sum` treats missing values as zero, and `sort_values(ascending=False)` is a
stable ascending sort followed by a reversal (pandas `nargsort` computes an
ascending argsort and reverses the indexer when `ascending=False`).
-/

set_option allowUnsafeReducibility true in
attribute [semireducible] Rat.add Rat.mul Rat.inv Rat.sub

deriving instance DecidableEq for Except

namespace EUEmissions

/-! ### Generic insertion sort used to model the pandas sorts -/

/-- Insert `a` into `l`, placing it immediately before the first element `b`
with `r a b = true`.  With a reflexive `r` this is the stable insertion step. -/
def insertOrd {α : Type} (r : α → α → Bool) (a : α) : List α → List α
  | [] => [a]
  | b :: bs => if r a b then a :: b :: bs else b :: insertOrd r a bs

/-- Stable insertion sort with respect to the boolean relation `r`. -/
def sortOrd {α : Type} (r : α → α → Bool) : List α → List α
  | [] => []
  | a :: as => insertOrd r a (sortOrd r as)

/-- Lexicographic comparison of character lists by Unicode code point: the
order pandas uses when sorting string group keys. -/
def charsLt : List Char → List Char → Bool
  | [], [] => false
  | [], _ :: _ => true
  | _ :: _, [] => false
  | a :: as, b :: bs =>
    if a.toNat < b.toNat then true
    else if b.toNat < a.toNat then false
    else charsLt as bs

/-- Strict lexicographic order on strings (by Unicode code point). -/
def strLt (a b : String) : Bool := charsLt a.data b.data

/-- Lexicographic less-or-equal on strings. -/
def strLe (a b : String) : Bool := strLt a b || a == b

/-- The ascending lexicographic order on (key, value) pairs: value strictly
smaller, or values equal with the key strictly smaller.  A stable ascending
value sort of a list whose keys are strictly ascending is `Pairwise Rlex`. -/
def Rlex (p q : String × ℚ) : Prop :=
  p.2 < q.2 ∨ (p.2 = q.2 ∧ strLt p.1 q.1 = true)

/-! ### Data model

One `Row` is one record of the table handed to `plot_stacked_barplot`:
`group` is the entry of the group column (`country_name`), `hue` the entry of
the hue column (`gas_scope` or `sector_name`), `value` the plotted value
column (`emissions_col`) and `base` the underlying absolute column
(`emissions_col` with any `_share` suffix stripped; equal to `value` when no
share statistic is involved).  A missing float is `none`. -/

structure Row where
  group : String
  hue : String
  value : Option ℚ
  base : Option ℚ
deriving DecidableEq, Repr

/-- A color identifier (the concrete RGB value is irrelevant to the layout). -/
abbrev Color := Nat

/-- The three runtime errors that `plot_stacked_barplot` can raise: a
Python `KeyError` from `palette[hue]` (carrying the missing key), the
`IndexError` from `group_locs[0]` / `group_locs[-1]` on an empty list, and
the `ValueError` that `ax.set_ylim` raises when a limit is `NaN`
(matplotlib rejects NaN/Inf axis limits; this happens exactly when
`group_pos_max` is `NaN`, i.e. no row has a strictly positive value). -/
inductive PlotError where
  | keyError (key : String)
  | indexError
  | valueError
deriving DecidableEq, Repr

/-! ### Group aggregation (pandas groupby / sort_values model) -/

/-- `sum` of a projected column over the rows of one group; pandas `sum`
skips missing values (an all-missing or empty group sums to `0`). -/
def groupSum (proj : Row → Option ℚ) (rows : List Row) (g : String) : ℚ :=
  ((rows.filter fun r => r.group == g).map fun r => (proj r).getD 0).sum

/-- The distinct group keys in ascending order: pandas `groupby` with the
default `sort=True` lists group keys sorted ascending. -/
def keyOrder (rows : List Row) : List String :=
  sortOrd strLe (rows.map Row.group).dedup

/-- `emissions_df.groupby(group_col)[col].sum()`: per-group sums of the
projected column, keyed by group, keys ascending. -/
def groupbySum (proj : Row → Option ℚ) (rows : List Row) : List (String × ℚ) :=
  (keyOrder rows).map fun g => (g, groupSum proj rows g)

/-- `.sort_values(ascending=False)` on a keyed series: pandas computes a
stable ascending argsort of the values and reverses the indexer. -/
def sortValuesDesc (l : List (String × ℚ)) : List (String × ℚ) :=
  (sortOrd (fun p q => decide (p.2 ≤ q.2)) l).reverse

/-- `group_sums_sorted` of the source (lines 74-88): per-group sums of
`emissions_col` (of the base column in share mode), sorted descending. -/
def stacked_group_sums (proj : Row → Option ℚ) (rows : List Row) :
    List (String × ℚ) :=
  sortValuesDesc (groupbySum proj rows)

/-- `group_order` of the source (line 88). -/
def stacked_group_order (proj : Row → Option ℚ) (rows : List Row) :
    List String :=
  (stacked_group_sums proj rows).map Prod.fst

/-- `emissions_df[emissions_col].gt(0)`: strictly positive, missing is false. -/
def posValue (r : Row) : Bool :=
  match r.value with
  | some v => decide (0 < v)
  | none => false

/-- `emissions_df[emissions_col].lt(0)`: strictly negative, missing is false. -/
def negValue (r : Row) : Bool :=
  match r.value with
  | some v => decide (v < 0)
  | none => false

/-- `.max()` of a pandas series: `NaN` (here `none`) when empty. -/
def maxList : List ℚ → Option ℚ
  | [] => none
  | a :: as =>
    match maxList as with
    | none => some a
    | some m => some (max a m)

/-- `.min()` of a pandas series: `NaN` (here `none`) when empty. -/
def minList : List ℚ → Option ℚ
  | [] => none
  | a :: as =>
    match minList as with
    | none => some a
    | some m => some (min a m)

/-- `group_pos_max` (source lines 91-96): restrict to rows with positive
value, per-group sums, maximum; `none` models the `NaN` of an empty max. -/
def group_pos_max (rows : List Row) : Option ℚ :=
  maxList ((groupbySum Row.value (rows.filter posValue)).map Prod.snd)

/-- `group_neg_max` (source lines 98-103): restrict to rows with negative
value, per-group sums, minimum; `none` models the `NaN` of an empty min. -/
def group_neg_max (rows : List Row) : Option ℚ :=
  minList ((groupbySum Row.value (rows.filter negValue)).map Prod.snd)

/-! ### The per-group stacking loop (source lines 105-160) -/

/-- The running accumulators of the inner loop: `above` is `bottom_above`
and `below` is `bottom_below` of the source. -/
structure StackState where
  above : ℚ
  below : ℚ
deriving DecidableEq, Repr

/-- One bar drawn by `plt.bar` (source lines 137-144). -/
structure Segment where
  x : ℚ
  bottom : ℚ
  height : ℚ
  width : ℚ
  color : Color
deriving DecidableEq, Repr

/-- The scalar value for a (group, hue) pair, as the source obtains it via
`.squeeze()` (lines 118-124): a unique matching row yields its (possibly
missing) value; zero or several matching rows yield a `pandas` Series, which
the source detects with `isinstance` and skips, so both are `none` here. -/
def lookupValue (rows : List Row) (g hue : String) : Option ℚ :=
  match rows.filter fun r => r.group == g && r.hue == hue with
  | [r] => r.value
  | _ => none

/-- One iteration of the inner hue loop (source lines 116-151) at group `g`
drawn at x-position `x`.  A missing value (no unique record, or a unique
record with a missing value) leaves the accumulators untouched and draws
nothing; otherwise the palette is consulted (`palette[hue]`, a hard
dictionary lookup) and the segment is stacked below or above zero. -/
def processHue (rows : List Row) (palette : List (String × Color)) (g : String)
    (x : ℚ) (acc : StackState × List Segment) (hue : String) :
    Except PlotError (StackState × List Segment) :=
  match lookupValue rows g hue with
  | none => .ok acc
  | some v =>
    match palette.lookup hue with
    | none => .error (.keyError hue)
    | some c =>
      if v < 0 then
        .ok (⟨acc.1.above, acc.1.below + v⟩,
          acc.2 ++ [⟨x, acc.1.below + v, -v, 4/5, c⟩])
      else
        .ok (⟨acc.1.above + v, acc.1.below⟩,
          acc.2 ++ [⟨x, acc.1.above, v, 4/5, c⟩])

/-- The inner hue loop over the supplied stack order. -/
def processHues (rows : List Row) (palette : List (String × Color)) (g : String)
    (x : ℚ) : List String → StackState × List Segment →
    Except PlotError (StackState × List Segment)
  | [], acc => .ok acc
  | hue :: hues, acc =>
    match processHue rows palette g x acc hue with
    | .error e => .error e
    | .ok acc2 => processHues rows palette g x hues acc2

/-- Everything the outer group loop accumulates: `locs` is `group_locs`,
`segments` the drawn bars, `states` the final accumulator pair of every
group (the loop locals at the end of each iteration), and `nets` is
`net_patches_to_add`. -/
structure GroupsAcc where
  locs : List ℚ
  segments : List Segment
  states : List (String × StackState)
  nets : List String
deriving DecidableEq, Repr

/-- The sequence of `n` x-slots starting at `x` and advancing by one unit:
the successive values of the loop variable `group_loc`. -/
def slotLocs (x : ℚ) : Nat → List ℚ
  | 0 => []
  | n + 1 => x :: slotLocs (x + 1) n

/-- The outer group loop (source lines 106-160): the first group is drawn at
`x = -0.5` and each following group one unit further right; a group whose
final `bottom_below` is nonzero is recorded in `net_patches_to_add`. -/
def processGroups (rows : List Row) (palette : List (String × Color))
    (hue_order : List String) : List String → ℚ → Except PlotError GroupsAcc
  | [], _ => .ok ⟨[], [], [], []⟩
  | g :: gs, x =>
    match processHues rows palette g x hue_order (⟨0, 0⟩, []) with
    | .error e => .error e
    | .ok (st, segs) =>
      match processGroups rows palette hue_order gs (x + 1) with
      | .error e => .error e
      | .ok acc =>
        .ok ⟨x :: acc.locs, segs ++ acc.segments, (g, st) :: acc.states,
          if st.below ≠ 0 then g :: acc.nets else acc.nets⟩

/-- The legend handle list (source lines 168-171): one `palette[x]` lookup
per stack-key of the hue order, in order; any missing key raises `KeyError`. -/
def legendHandles (palette : List (String × Color)) :
    List String → Except PlotError (List (String × Color))
  | [] => .ok []
  | h :: hs =>
    match palette.lookup h with
    | none => .error (.keyError h)
    | some c => (legendHandles palette hs).map (fun rest => (h, c) :: rest)

/-- `ax.set_ylim` (source lines 212-221): when `group_neg_max` is `NaN` the
limits come from `group_pos_max` alone, otherwise both bounds are padded by
one percent of the positive-to-negative range.  `NaN` propagates. -/
def ylimOf (gpos gneg : Option ℚ) : Option ℚ × Option ℚ :=
  match gneg with
  | none => (gpos.map fun p => -(5/1000) * p, gpos.map fun p => (102/100) * p)
  | some n =>
    match gpos with
    | none => (none, none)
    | some p => (some (n - (1/100) * (p - n)), some (p + (1/100) * (p - n)))

/-- One "net emissions" rectangle (source lines 227-238). -/
structure NetPatch where
  group : String
  xLeft : ℚ
  yBottom : Option ℚ
  width : ℚ
  height : Option ℚ
deriving DecidableEq, Repr

/-- The vertical centre of a net-emissions rectangle. -/
def NetPatch.centerY (p : NetPatch) : Option ℚ :=
  Option.map₂ (fun y h => y + h / 2) p.yBottom p.height

/-- The deterministic layout descriptor produced by one call of
`plot_stacked_barplot`. -/
structure Layout where
  group_order : List String
  group_locs : List ℚ
  segments : List Segment
  finalStates : List (String × StackState)
  legend : List (String × Color)
  xlim : ℚ × ℚ
  ylim : Option ℚ × Option ℚ
  netPatches : List NetPatch
deriving DecidableEq, Repr

/-- `ax.get_ylim()[1] - ax.get_ylim()[0]` (`NaN` propagates). -/
def spanOf (ylim : Option ℚ × Option ℚ) : Option ℚ :=
  Option.map₂ (fun hi lo => hi - lo) ylim.2 ylim.1

/-- The y-axis span of a layout. -/
def Layout.span (l : Layout) : Option ℚ :=
  spanOf l.ylim

/-- One net-emissions rectangle (source lines 227-238): left edge at
`-0.5 + group_order.index(g) - 0.1`, bottom edge at the group's entry of
`group_sums_sorted` minus half the height, width `0.2`, height one percent
of the y-axis span. -/
def netPatchOf (sums : List (String × ℚ)) (order : List String)
    (span : Option ℚ) (g : String) : NetPatch :=
  { group := g
    xLeft := -(1/2) + (order.indexOf g : ℚ) - 1/10
    yBottom := span.map fun s => ((sums.lookup g).getD 0) - (5/1000) * s
    width := 1/5
    height := span.map fun s => (1/100) * s }

/-- Model of `plot_stacked_barplot` (src/eu_emissions_functions.py, lines
56-254).  `share` is `statistic == "share"`; it selects the column used for
the group ordering (the base column in share mode, line 80-87).  The steps
appear in source order: group ordering, positive/negative extents, the group
loop, the legend handles, `set_xlim` (which indexes `group_locs[0]` and
`group_locs[-1]` and therefore raises `IndexError` on an empty list),
`set_ylim` (which raises `ValueError` when either limit is `NaN`, i.e.
when the table has no strictly positive value), and the net-emissions
rectangles (centred, per patch, at the group's entry of
`group_sums_sorted`). -/
def plot_stacked_barplot (rows : List Row) (hue_order : List String)
    (palette : List (String × Color)) (share : Bool) :
    Except PlotError Layout :=
  match processGroups rows palette hue_order
    (stacked_group_order (if share then Row.base else Row.value) rows)
    (-(1/2)) with
  | .error e => .error e
  | .ok acc =>
    match legendHandles palette hue_order with
    | .error e => .error e
    | .ok legend =>
      match acc.locs.head?, acc.locs.getLast? with
      | some a, some b =>
        match ylimOf (group_pos_max rows) (group_neg_max rows) with
        | (some lo, some hi) =>
          .ok { group_order :=
                  stacked_group_order (if share then Row.base else Row.value)
                    rows
                group_locs := acc.locs
                segments := acc.segments
                finalStates := acc.states
                legend := legend
                xlim := (a - 1/2, b + 1/2)
                ylim := (some lo, some hi)
                netPatches := acc.nets.map
                  (netPatchOf
                    (stacked_group_sums
                      (if share then Row.base else Row.value) rows)
                    (stacked_group_order
                      (if share then Row.base else Row.value) rows)
                    (spanOf (some lo, some hi))) }
        | _ => .error .valueError
      | _, _ => .error .indexError

/-! ### Derived-metric builder: `create_emissions_per_capita`
(src/eu_emissions_main.py, lines 26-65) -/

/-- One input row of the per-capita builder: only the country code and the
emissions value column take part. -/
structure EmRow where
  country_code : String
  value : Option ℚ
deriving DecidableEq, Repr

/-- One output row: the (possibly remapped) country code, the emissions
value, the `population` column and the `emissions_per_capita` column. -/
structure EmRowPC where
  country_code : String
  value : Option ℚ
  population : Option ℚ
  emissions_per_capita : Option ℚ
deriving DecidableEq, Repr

/-- The code remapping of lines 34-38: `map` through the mapping dictionary
followed by `fillna` with the original code — the identity on codes absent
from the mapping. -/
def remapCode (mappings : List (String × String)) (r : EmRow) : EmRow :=
  { r with country_code :=
      (mappings.lookup r.country_code).getD r.country_code }

/-- The population dictionary of lines 41-51: one `pypopulation` lookup per
distinct non-excluded country code of the (already remapped) table.  A
lookup can itself return `none` (unknown code). -/
def populationDict (pop_lookup : String → Option ℚ) (excludes : List String)
    (remapped : List EmRow) : List (String × Option ℚ) :=
  (((remapped.filter fun r =>
    !excludes.contains r.country_code).map EmRow.country_code).dedup).map
    fun c => (c, pop_lookup c)

/-- Lines 54-63 for one row: map the population dictionary onto the row (a
code not in the dictionary gets a missing population), then
`np.where(population.notnull(), 1e6 * value / population, nan)`. -/
def perCapitaRow (dict : List (String × Option ℚ)) (r : EmRow) : EmRowPC :=
  let p := (dict.lookup r.country_code).getD none
  { country_code := r.country_code
    value := r.value
    population := p
    emissions_per_capita :=
      match p with
      | some pv => r.value.map fun v => 1000000 * v / pv
      | none => none }

/-- Model of `create_emissions_per_capita` (src/eu_emissions_main.py, lines
26-65).  `pop_lookup` models the external `pypopulation.get_population_a2`
collaborator. -/
def create_emissions_per_capita (pop_lookup : String → Option ℚ)
    (excludes : List String) (mappings : List (String × String))
    (rows : List EmRow) : List EmRowPC :=
  let remapped := rows.map (remapCode mappings)
  remapped.map (perCapitaRow (populationDict pop_lookup excludes remapped))

/-! ### Share-mode pre-step of `create_emissions_by_gas`
(src/eu_emissions_main.py, lines 126-158) -/

/-- One input row of the share computation. -/
structure GasRow where
  country_code : String
  gas_scope : String
  value : Option ℚ
deriving DecidableEq, Repr

/-- One output row: the original columns, the per-country total over the
positively-valued rows (`country_total_emissions`), and the share column. -/
structure ShareRow where
  country_code : String
  gas_scope : String
  value : Option ℚ
  country_total_emissions : ℚ
  share : ℚ
deriving DecidableEq, Repr

/-- `gas_emissions[emissions_col].gt(0)`: missing compares false. -/
def gasPos (r : GasRow) : Bool :=
  match r.value with
  | some v => decide (0 < v)
  | none => false

/-- Per-country sum of the value column of a gas table (pandas `sum`). -/
def gas_country_total (rows : List GasRow) (c : String) : ℚ :=
  ((rows.filter fun r => r.country_code == c).map fun r => r.value.getD 0).sum

/-- Model of the `statistic == "share"` branch of `create_emissions_by_gas`
(lines 126-158): restrict to strictly positive values, compute each
country's total over the restricted set, attach it to every row, and set
`share = 100 * value / country_total_emissions`. -/
def create_emissions_by_gas_share (rows : List GasRow) : List ShareRow :=
  let filtered := rows.filter gasPos
  filtered.map fun r =>
    let t := gas_country_total filtered r.country_code
    { country_code := r.country_code
      gas_scope := r.gas_scope
      value := r.value
      country_total_emissions := t
      share := 100 * r.value.getD 0 / t }

/-! ### The spec-side group ordering, for comparison (claim C2)

`spec_group_order` is modelled from the words of the spec, NOT from the
source: "for any set of (group, value) pairs, the aggregator's descending
order must equal a manual descending sort of group sums, ties preserved in
original encounter order" (spec section 8). -/

/-- First-encounter order of the distinct groups of the table. -/
def encounterKeys (rows : List Row) : List String :=
  rows.foldl (fun acc r => if r.group ∈ acc then acc else acc ++ [r.group]) []

/-- The group ordering in the spec's words: a stable descending sort, by
per-group sum, of the groups taken in first-encounter order, so that groups
with equal sums stay in encounter order. -/
def spec_group_order (proj : Row → Option ℚ) (rows : List Row) : List String :=
  (sortOrd (fun p q : String × ℚ => decide (q.2 ≤ p.2))
    ((encounterKeys rows).map fun g => (g, groupSum proj rows g))).map Prod.fst

/-! ### Concrete tables used by the claims -/

/-- The spec's worked stacking example: one group with values 5, -3, 2, -1
on four stack-keys, in stack order. -/
def stackExampleRows : List Row :=
  [⟨"G", "a", some 5, some 5⟩, ⟨"G", "b", some (-3), some (-3)⟩,
   ⟨"G", "c", some 2, some 2⟩, ⟨"G", "d", some (-1), some (-1)⟩]

/-- A palette covering the four stack-keys of `stackExampleRows`. -/
def stackExamplePalette : List (String × Color) :=
  [("a", 0), ("b", 1), ("c", 2), ("d", 3)]

/-- The stack order of the spec's worked example. -/
def stackExampleHues : List String := ["a", "b", "c", "d"]

/-- Two groups with equal sums, encountered in the order A then B. -/
def tieRows : List Row :=
  [⟨"A", "h", some 10, some 10⟩, ⟨"B", "h", some 10, some 10⟩]

/-- All-positive table whose maximal positive group sum is 100. -/
def posLimitRows : List Row :=
  [⟨"A", "h1", some 60, some 60⟩, ⟨"A", "h2", some 40, some 40⟩,
   ⟨"B", "h1", some 50, some 50⟩]

/-- Mixed-sign table with `group_pos_max` 100 and `group_neg_max` -20. -/
def mixedLimitRows : List Row :=
  [⟨"A", "h1", some 100, some 100⟩, ⟨"B", "h2", some (-20), some (-20)⟩]

/-- A palette covering the keys h1 and h2. -/
def h12Palette : List (String × Color) := [("h1", 0), ("h2", 1)]

/-- A group with a negative value on a stack-key in the stack order and a
positive value on a stack-key outside it: its column sum (-2) differs from
the final `above + below` (-5) of the drawn segments. -/
def netPatchRows : List Row :=
  [⟨"G", "h1", some (-5), some (-5)⟩, ⟨"G", "h2", some 3, some 3⟩]

/-- The layout produced by `plot_stacked_barplot` on `netPatchRows` with
stack order [h1] and a palette mapping h1 to color 0: group sum -2,
ylim (-5.08, 3.08), one marker centred vertically at -2. -/
def netPatchLayout : Layout :=
  { group_order := ["G"]
    group_locs := [-(1/2)]
    segments := [⟨-(1/2), -5, 5, 4/5, 0⟩]
    finalStates := [("G", ⟨0, -5⟩)]
    legend := [("h1", 0)]
    xlim := (-1, 0)
    ylim := (some (-(127/25)), some (77/25))
    netPatches := [⟨"G", -(3/5), some (-(2551/1250)), 1/5, some (51/625)⟩] }

/-- A table whose group B has only a missing value: B still gets a slot. -/
def emptyGroupRows : List Row :=
  [⟨"A", "h1", some 5, some 5⟩, ⟨"B", "h1", none, none⟩]

/-- A nonempty table whose only group has only a missing value: no strictly
positive value exists anywhere, so `group_pos_max` is `NaN` and `set_ylim`
receives NaN limits. -/
def allMissingRows : List Row := [⟨"A", "h1", none, none⟩]

/-- One country with three positive gas rows 10, 20, 70. -/
def shareExampleRows : List GasRow :=
  [⟨"AT", "CO2", some 10⟩, ⟨"AT", "CH4", some 20⟩, ⟨"AT", "N2O", some 70⟩]

/-- A country whose rows are all non-positive: its positive-restricted
total is zero and it contributes no share rows. -/
def shareZeroRows : List GasRow :=
  [⟨"AT", "CO2", some 10⟩, ⟨"ZZ", "CO2", some (-4)⟩, ⟨"ZZ", "CH4", some 0⟩]

/-- A population lookup for the per-capita witness: only GR is known. -/
def demoPop (c : String) : Option ℚ := if c = "GR" then some 10000000 else none

/-- Per-capita witness input: one row with the legacy code EL. -/
def demoEmRows : List EmRow := [⟨"EL", some 50⟩]

/-! ### Lemmas about the sorting model -/

theorem insertOrd_perm {α : Type} (r : α → α → Bool) (a : α) :
    ∀ l : List α, (insertOrd r a l).Perm (a :: l) := by
  intro l
  induction l with
  | nil => simp [insertOrd]
  | cons b bs ih =>
    simp only [insertOrd]
    by_cases h : r a b = true
    · simp [h]
    · simp only [h, if_false]
      exact (ih.cons b).trans (List.Perm.swap a b bs)

theorem sortOrd_perm {α : Type} (r : α → α → Bool) :
    ∀ l : List α, (sortOrd r l).Perm l := by
  intro l
  induction l with
  | nil => simp [sortOrd]
  | cons a as ih =>
    simpa [sortOrd] using (insertOrd_perm r a (sortOrd r as)).trans (ih.cons a)

theorem mem_insertOrd {α : Type} {r : α → α → Bool} {a x : α} {l : List α} :
    x ∈ insertOrd r a l ↔ x = a ∨ x ∈ l := by
  have h := (insertOrd_perm r a l).mem_iff (a := x)
  simpa using h

theorem mem_sortOrd {α : Type} {r : α → α → Bool} {x : α} {l : List α} :
    x ∈ sortOrd r l ↔ x ∈ l := (sortOrd_perm r l).mem_iff

theorem charsLt_trans :
    ∀ (a b c : List Char), charsLt a b = true → charsLt b c = true →
      charsLt a c = true := by
  intro a
  induction a with
  | nil =>
    intro b c hab hbc
    cases b with
    | nil => simp [charsLt] at hab
    | cons y ys =>
      cases c with
      | nil => simp [charsLt] at hbc
      | cons z zs => simp [charsLt]
  | cons x xs ih =>
    intro b c hab hbc
    cases b with
    | nil => simp [charsLt] at hab
    | cons y ys =>
      cases c with
      | nil => simp [charsLt] at hbc
      | cons z zs =>
        simp only [charsLt] at hab hbc ⊢
        by_cases h1 : x.toNat < y.toNat
        · by_cases h3 : y.toNat < z.toNat
          · rw [if_pos (show x.toNat < z.toNat by omega)]
          · rw [if_neg h3] at hbc
            by_cases h4 : z.toNat < y.toNat
            · rw [if_pos h4] at hbc
              simp at hbc
            · rw [if_neg h4] at hbc
              rw [if_pos (show x.toNat < z.toNat by omega)]
        · rw [if_neg h1] at hab
          by_cases h2 : y.toNat < x.toNat
          · rw [if_pos h2] at hab
            simp at hab
          · rw [if_neg h2] at hab
            by_cases h3 : y.toNat < z.toNat
            · rw [if_pos (show x.toNat < z.toNat by omega)]
            · rw [if_neg h3] at hbc
              by_cases h4 : z.toNat < y.toNat
              · rw [if_pos h4] at hbc
                simp at hbc
              · rw [if_neg h4] at hbc
                rw [if_neg (show ¬x.toNat < z.toNat by omega),
                  if_neg (show ¬z.toNat < x.toNat by omega)]
                exact ih ys zs hab hbc

theorem charsLt_antisymm :
    ∀ (a b : List Char), charsLt a b = false → charsLt b a = false → a = b := by
  intro a
  induction a with
  | nil =>
    intro b hab _
    cases b with
    | nil => rfl
    | cons y ys => simp [charsLt] at hab
  | cons x xs ih =>
    intro b hab hba
    cases b with
    | nil => simp [charsLt] at hba
    | cons y ys =>
      simp only [charsLt] at hab hba
      by_cases h1 : x.toNat < y.toNat
      · simp [h1] at hab
      · by_cases h2 : y.toNat < x.toNat
        · simp [h1, h2] at hba
        · simp only [h1, h2, if_true, if_false] at hab hba
          have hval : x.toNat = y.toNat := by omega
          have hxy : x = y := Char.eq_of_val_eq (UInt32.ext hval)
          rw [hxy, ih ys hab hba]

theorem strLe_total (a b : String) : strLe a b = true ∨ strLe b a = true := by
  by_cases h1 : strLt a b = true
  · exact Or.inl (by simp [strLe, h1])
  · by_cases h2 : strLt b a = true
    · exact Or.inr (by simp [strLe, h2])
    · have : a.data = b.data :=
        charsLt_antisymm a.data b.data
          (Bool.not_eq_true _ ▸ h1) (Bool.not_eq_true _ ▸ h2)
      have hab : a = b := by
        cases a
        cases b
        exact congrArg String.mk this
      subst hab
      exact Or.inl (by simp [strLe])

theorem strLt_trans {a b c : String} (h1 : strLt a b = true)
    (h2 : strLt b c = true) : strLt a c = true :=
  charsLt_trans a.data b.data c.data h1 h2

theorem strLe_trans {a b c : String} (h1 : strLe a b = true)
    (h2 : strLe b c = true) : strLe a c = true := by
  simp only [strLe, Bool.or_eq_true, beq_iff_eq] at h1 h2 ⊢
  rcases h1 with h1 | h1
  · rcases h2 with h2 | h2
    · exact Or.inl (strLt_trans h1 h2)
    · exact Or.inl (h2 ▸ h1)
  · rcases h2 with h2 | h2
    · exact Or.inl (h1 ▸ h2)
    · exact Or.inr (h1.trans h2)

theorem strLt_of_strLe_of_ne {a b : String} (h : strLe a b = true)
    (hne : a ≠ b) : strLt a b = true := by
  simp only [strLe, Bool.or_eq_true, beq_iff_eq] at h
  rcases h with h | h
  · exact h
  · exact absurd h hne

theorem strLt_irrefl (a : String) : strLt a a = false := by
  have : ∀ l : List Char, charsLt l l = false := by
    intro l
    induction l with
    | nil => simp [charsLt]
    | cons x xs ih => simp [charsLt, ih]
  exact this a.data

theorem pairwise_insertOrd {α : Type} {r : α → α → Bool}
    (htrans : ∀ a b c, r a b = true → r b c = true → r a c = true)
    (htot : ∀ a b, r a b = true ∨ r b a = true) (a : α) :
    ∀ l : List α, l.Pairwise (fun x y => r x y = true) →
      (insertOrd r a l).Pairwise (fun x y => r x y = true) := by
  intro l
  induction l with
  | nil => intro _; simp [insertOrd]
  | cons b bs ih =>
    intro hl
    rcases List.pairwise_cons.mp hl with ⟨hb, hbs⟩
    simp only [insertOrd]
    by_cases hab : r a b = true
    · simp only [hab, if_true]
      refine List.pairwise_cons.mpr ⟨?_, hl⟩
      intro c hc
      rcases List.mem_cons.mp hc with h | h
      · subst h; exact hab
      · exact htrans a b c hab (hb c h)
    · simp only [hab, if_false]
      refine List.pairwise_cons.mpr ⟨?_, ih hbs⟩
      intro c hc
      rcases mem_insertOrd.mp hc with h | h
      · subst h
        rcases htot c b with hcb | hbc2
        · exact absurd hcb hab
        · exact hbc2
      · exact hb c h

theorem pairwise_sortOrd {α : Type} {r : α → α → Bool}
    (htrans : ∀ a b c, r a b = true → r b c = true → r a c = true)
    (htot : ∀ a b, r a b = true ∨ r b a = true) :
    ∀ l : List α, (sortOrd r l).Pairwise (fun x y => r x y = true) := by
  intro l
  induction l with
  | nil => simp [sortOrd]
  | cons a as ih => exact pairwise_insertOrd htrans htot a _ ih

theorem pairwise_Rlex_insertOrd (a : String × ℚ) :
    ∀ l : List (String × ℚ), l.Pairwise Rlex →
      (∀ b ∈ l, strLt a.1 b.1 = true) →
      (insertOrd (fun p q => decide (p.2 ≤ q.2)) a l).Pairwise Rlex := by
  intro l
  induction l with
  | nil => intro _ _; simp [insertOrd]
  | cons b bs ih =>
    intro hl hk
    rcases List.pairwise_cons.mp hl with ⟨hb, hbs⟩
    simp only [insertOrd]
    by_cases hab : a.2 ≤ b.2
    · rw [if_pos (by simpa using hab)]
      refine List.pairwise_cons.mpr ⟨?_, hl⟩
      intro c hc
      rcases List.mem_cons.mp hc with h | h
      · subst h
        rcases lt_or_eq_of_le hab with h2 | h2
        · exact Or.inl h2
        · exact Or.inr ⟨h2, hk c (List.mem_cons_self c bs)⟩
      · have hbc := hb c h
        rcases hbc with h2 | h2
        · exact Or.inl (lt_of_le_of_lt hab h2)
        · rcases lt_or_eq_of_le hab with h3 | h3
          · exact Or.inl (h2.1 ▸ h3)
          · exact Or.inr ⟨h3.trans h2.1, hk c (List.mem_cons_of_mem b h)⟩
    · rw [if_neg (by simpa using hab)]
      refine List.pairwise_cons.mpr ⟨?_, ?_⟩
      · intro c hc
        rcases mem_insertOrd.mp hc with h | h
        · subst h
          exact Or.inl (lt_of_not_le hab)
        · exact hb c h
      · exact ih hbs fun c hc => hk c (List.mem_cons_of_mem b hc)

theorem pairwise_Rlex_sortOrd :
    ∀ l : List (String × ℚ), l.Pairwise (fun p q => strLt p.1 q.1 = true) →
      (sortOrd (fun p q => decide (p.2 ≤ q.2)) l).Pairwise Rlex := by
  intro l
  induction l with
  | nil => intro _; simp [sortOrd]
  | cons a as ih =>
    intro hl
    rcases List.pairwise_cons.mp hl with ⟨ha, has⟩
    exact pairwise_Rlex_insertOrd a _ (ih has)
      fun b hb => ha b (mem_sortOrd.mp hb)

/-! ### Lemmas about the group aggregation -/

theorem keyOrder_nodup (rows : List Row) : (keyOrder rows).Nodup :=
  ((sortOrd_perm strLe _).nodup_iff).mpr (List.nodup_dedup _)

theorem keyOrder_pairwise_strLe (rows : List Row) :
    (keyOrder rows).Pairwise fun a b => strLe a b = true := by
  have h := pairwise_sortOrd (r := strLe)
    (fun _ _ _ h1 h2 => strLe_trans h1 h2) strLe_total
    ((rows.map Row.group).dedup)
  exact h

theorem keyOrder_pairwise_strLt (rows : List Row) :
    (keyOrder rows).Pairwise fun a b => strLt a b = true := by
  have h1 := keyOrder_pairwise_strLe rows
  have h2 : (keyOrder rows).Pairwise (· ≠ ·) := keyOrder_nodup rows
  exact (h1.and h2).imp fun hab => strLt_of_strLe_of_ne hab.1 hab.2

theorem mem_keyOrder {rows : List Row} {g : String} :
    g ∈ keyOrder rows ↔ g ∈ rows.map Row.group := by
  unfold keyOrder
  rw [mem_sortOrd, List.mem_dedup]

theorem map_fst_groupbySum (proj : Row → Option ℚ) (rows : List Row) :
    (groupbySum proj rows).map Prod.fst = keyOrder rows := by
  unfold groupbySum
  rw [List.map_map]
  exact List.map_id _

theorem groupbySum_pairwise (proj : Row → Option ℚ) (rows : List Row) :
    (groupbySum proj rows).Pairwise fun p q => strLt p.1 q.1 = true := by
  unfold groupbySum
  exact List.pairwise_map.mpr (keyOrder_pairwise_strLt rows)

theorem stacked_group_sums_pairwise (proj : Row → Option ℚ) (rows : List Row) :
    (stacked_group_sums proj rows).Pairwise
      fun p q => q.2 < p.2 ∨ (q.2 = p.2 ∧ strLt q.1 p.1 = true) := by
  unfold stacked_group_sums sortValuesDesc
  rw [List.pairwise_reverse]
  exact pairwise_Rlex_sortOrd _ (groupbySum_pairwise proj rows)

theorem stacked_group_sums_perm (proj : Row → Option ℚ) (rows : List Row) :
    (stacked_group_sums proj rows).Perm (groupbySum proj rows) :=
  (List.reverse_perm _).trans (sortOrd_perm _ _)

theorem mem_stacked_group_order {proj : Row → Option ℚ} {rows : List Row}
    {g : String} :
    g ∈ stacked_group_order proj rows ↔ g ∈ rows.map Row.group := by
  unfold stacked_group_order
  rw [((stacked_group_sums_perm proj rows).map Prod.fst).mem_iff,
    map_fst_groupbySum, mem_keyOrder]

theorem stacked_group_order_ne_nil {proj : Row → Option ℚ} {rows : List Row}
    (h : rows ≠ []) : stacked_group_order proj rows ≠ [] := by
  cases rows with
  | nil => exact absurd rfl h
  | cons r rs =>
    intro hempty
    have hmem : r.group ∈ stacked_group_order proj (r :: rs) :=
      mem_stacked_group_order.mpr (by simp)
    rw [hempty] at hmem
    exact absurd hmem (List.not_mem_nil _)

/-! ### Lemmas about the stacking loop -/

theorem processHue_of_none {rows : List Row} {palette : List (String × Color)}
    {g : String} {x : ℚ} {acc : StackState × List Segment} {hue : String}
    (h : lookupValue rows g hue = none) :
    processHue rows palette g x acc hue = .ok acc := by
  unfold processHue
  rw [h]

theorem processHue_of_some {rows : List Row} {palette : List (String × Color)}
    {g : String} {x : ℚ} {acc : StackState × List Segment} {hue : String}
    {v : ℚ} {c : Color} (hv : lookupValue rows g hue = some v)
    (hc : palette.lookup hue = some c) :
    processHue rows palette g x acc hue =
      if v < 0 then
        .ok (⟨acc.1.above, acc.1.below + v⟩,
          acc.2 ++ [⟨x, acc.1.below + v, -v, 4/5, c⟩])
      else
        .ok (⟨acc.1.above + v, acc.1.below⟩,
          acc.2 ++ [⟨x, acc.1.above, v, 4/5, c⟩]) := by
  unfold processHue
  rw [hv, hc]

theorem processHue_error_inv {rows : List Row} {palette : List (String × Color)}
    {g : String} {x : ℚ} {acc : StackState × List Segment} {hue : String}
    {e : PlotError} (h : processHue rows palette g x acc hue = .error e) :
    e = .keyError hue ∧ palette.lookup hue = none := by
  cases hv : lookupValue rows g hue with
  | none =>
    rw [processHue_of_none hv] at h
    exact absurd h (by simp)
  | some v =>
    cases hc : palette.lookup hue with
    | none =>
      have heq : processHue rows palette g x acc hue =
          .error (.keyError hue) := by
        unfold processHue
        rw [hv, hc]
      rw [heq] at h
      injection h with h2
      exact ⟨h2.symm, rfl⟩
    | some c =>
      rw [processHue_of_some hv hc] at h
      by_cases hneg : v < 0
      · rw [if_pos hneg] at h
        exact absurd h (by simp)
      · rw [if_neg hneg] at h
        exact absurd h (by simp)

theorem processHues_error_inv {rows : List Row} {palette : List (String × Color)}
    {g : String} {x : ℚ} :
    ∀ (hues : List String) (acc : StackState × List Segment) (e : PlotError),
      processHues rows palette g x hues acc = .error e →
      ∃ k, e = .keyError k ∧ k ∈ hues ∧ palette.lookup k = none := by
  intro hues
  induction hues with
  | nil =>
    intro acc e h
    simp [processHues] at h
  | cons hue hs ih =>
    intro acc e h
    simp only [processHues] at h
    cases hph : processHue rows palette g x acc hue with
    | error e2 =>
      rw [hph] at h
      injection h with h2
      subst h2
      rcases processHue_error_inv hph with ⟨he, hp⟩
      exact ⟨hue, he, List.mem_cons_self hue hs, hp⟩
    | ok acc2 =>
      rw [hph] at h
      rcases ih acc2 e h with ⟨k, hk1, hk2, hk3⟩
      exact ⟨k, hk1, List.mem_cons_of_mem hue hk2, hk3⟩

theorem processHues_ok_of_covered {rows : List Row}
    {palette : List (String × Color)} {g : String} {x : ℚ} :
    ∀ (hues : List String), (∀ h ∈ hues, (palette.lookup h).isSome) →
      ∀ acc, ∃ res, processHues rows palette g x hues acc = .ok res := by
  intro hues
  induction hues with
  | nil =>
    intro _ acc
    exact ⟨acc, rfl⟩
  | cons hue hs ih =>
    intro hcov acc
    have hcov2 : ∀ h ∈ hs, (palette.lookup h).isSome :=
      fun h hm => hcov h (List.mem_cons_of_mem hue hm)
    cases hv : lookupValue rows g hue with
    | none =>
      rcases ih hcov2 acc with ⟨res, hres⟩
      refine ⟨res, ?_⟩
      simp only [processHues, processHue_of_none hv]
      exact hres
    | some v =>
      rcases Option.isSome_iff_exists.mp
        (hcov hue (List.mem_cons_self hue hs)) with ⟨c, hc⟩
      by_cases hneg : v < 0
      · rcases ih hcov2 (⟨acc.1.above, acc.1.below + v⟩,
          acc.2 ++ [⟨x, acc.1.below + v, -v, 4/5, c⟩]) with ⟨res, hres⟩
        refine ⟨res, ?_⟩
        simp only [processHues, processHue_of_some hv hc, if_pos hneg]
        exact hres
      · rcases ih hcov2 (⟨acc.1.above + v, acc.1.below⟩,
          acc.2 ++ [⟨x, acc.1.above, v, 4/5, c⟩]) with ⟨res, hres⟩
        refine ⟨res, ?_⟩
        simp only [processHues, processHue_of_some hv hc, if_neg hneg]
        exact hres

theorem processGroups_ok_inv {rows : List Row} {palette : List (String × Color)}
    {hue_order : List String} :
    ∀ (gs : List String) (x : ℚ) (acc : GroupsAcc),
      processGroups rows palette hue_order gs x = .ok acc →
      acc.locs = slotLocs x gs.length ∧
      acc.states.map Prod.fst = gs ∧
      acc.nets =
        (acc.states.filter fun s => decide (s.2.below ≠ 0)).map Prod.fst := by
  intro gs
  induction gs with
  | nil =>
    intro x acc h
    have h2 : (⟨[], [], [], []⟩ : GroupsAcc) = acc := by
      injection h
    subst h2
    simp [slotLocs]
  | cons g gs ih =>
    intro x acc h
    simp only [processGroups] at h
    cases hph : processHues rows palette g x hue_order (⟨0, 0⟩, []) with
    | error e =>
      rw [hph] at h
      exact absurd h (by simp)
    | ok p =>
      obtain ⟨st, segs⟩ := p
      rw [hph] at h
      cases hrec : processGroups rows palette hue_order gs (x + 1) with
      | error e =>
        rw [hrec] at h
        exact absurd h (by simp)
      | ok acc2 =>
        rw [hrec] at h
        have h3 : (⟨x :: acc2.locs, segs ++ acc2.segments,
            (g, st) :: acc2.states,
            if st.below ≠ 0 then g :: acc2.nets else acc2.nets⟩ :
            GroupsAcc) = acc := by
          injection h
        subst h3
        rcases ih (x + 1) acc2 hrec with ⟨hlocs, hstates, hnets⟩
        refine ⟨?_, ?_, ?_⟩
        · simp only [List.length_cons, slotLocs, hlocs]
        · simp only [List.map_cons, hstates]
        · by_cases hb : st.below ≠ 0
          · rw [if_pos hb, List.filter_cons,
              if_pos (decide_eq_true hb), List.map_cons, hnets]
          · rw [if_neg hb, List.filter_cons,
              if_neg (by simpa using hb), hnets]

theorem processGroups_error_inv {rows : List Row}
    {palette : List (String × Color)} {hue_order : List String} :
    ∀ (gs : List String) (x : ℚ) (e : PlotError),
      processGroups rows palette hue_order gs x = .error e →
      ∃ k, e = .keyError k ∧ k ∈ hue_order ∧ palette.lookup k = none := by
  intro gs
  induction gs with
  | nil =>
    intro x e h
    simp [processGroups] at h
  | cons g gs ih =>
    intro x e h
    simp only [processGroups] at h
    cases hph : processHues rows palette g x hue_order (⟨0, 0⟩, []) with
    | error e2 =>
      rw [hph] at h
      injection h with h2
      subst h2
      exact processHues_error_inv hue_order _ e2 hph
    | ok p =>
      obtain ⟨st, segs⟩ := p
      rw [hph] at h
      cases hrec : processGroups rows palette hue_order gs (x + 1) with
      | error e2 =>
        rw [hrec] at h
        injection h with h2
        subst h2
        exact ih (x + 1) e2 hrec
      | ok acc2 =>
        rw [hrec] at h
        exact absurd h (by simp)

theorem processGroups_ok_of_covered {rows : List Row}
    {palette : List (String × Color)} {hue_order : List String}
    (hcov : ∀ h ∈ hue_order, (palette.lookup h).isSome) :
    ∀ (gs : List String) (x : ℚ),
      ∃ acc, processGroups rows palette hue_order gs x = .ok acc := by
  intro gs
  induction gs with
  | nil =>
    intro x
    exact ⟨⟨[], [], [], []⟩, rfl⟩
  | cons g gs ih =>
    intro x
    rcases processHues_ok_of_covered hue_order hcov
      (g := g) (x := x) (⟨0, 0⟩, []) with ⟨p, hp⟩
    rcases ih (x + 1) with ⟨acc2, hacc2⟩
    refine ⟨⟨x :: acc2.locs, p.2 ++ acc2.segments, (g, p.1) :: acc2.states,
      if p.1.below ≠ 0 then g :: acc2.nets else acc2.nets⟩, ?_⟩
    simp only [processGroups]
    rw [hp, hacc2]

/-! ### Lemmas about the legend handles -/

theorem legendHandles_error_of_missing {palette : List (String × Color)} :
    ∀ (hues : List String) (h : String), h ∈ hues → palette.lookup h = none →
      ∃ k, legendHandles palette hues = .error (.keyError k) ∧
        k ∈ hues ∧ palette.lookup k = none := by
  intro hues
  induction hues with
  | nil =>
    intro h hm _
    exact absurd hm (List.not_mem_nil h)
  | cons hue hs ih =>
    intro h hm hnone
    cases hc : palette.lookup hue with
    | none =>
      refine ⟨hue, ?_, List.mem_cons_self hue hs, hc⟩
      simp only [legendHandles, hc]
    | some c =>
      have hm2 : h ∈ hs := by
        rcases List.mem_cons.mp hm with h2 | h2
        · subst h2
          rw [hc] at hnone
          exact absurd hnone (by simp)
        · exact h2
      rcases ih h hm2 hnone with ⟨k, hk1, hk2, hk3⟩
      refine ⟨k, ?_, List.mem_cons_of_mem hue hk2, hk3⟩
      simp only [legendHandles, hc, hk1]
      rfl

theorem slotLocs_length : ∀ (n : Nat) (x : ℚ), (slotLocs x n).length = n := by
  intro n
  induction n with
  | zero => intro x; rfl
  | succ n ih =>
    intro x
    simp [slotLocs, ih]

theorem slotLocs_getElem :
    ∀ (n i : Nat) (x : ℚ), i < n → (slotLocs x n)[i]? = some (x + i) := by
  intro n
  induction n with
  | zero =>
    intro i x h
    exact absurd h (Nat.not_lt_zero i)
  | succ n ih =>
    intro i x h
    cases i with
    | zero => simp [slotLocs]
    | succ i =>
      simp only [slotLocs, List.getElem?_cons_succ]
      rw [ih i (x + 1) (by omega)]
      congr 1
      push_cast
      ring

theorem slotLocs_ne_nil {x : ℚ} {n : Nat} (h : 0 < n) : slotLocs x n ≠ [] := by
  cases n with
  | zero => exact absurd h (by omega)
  | succ n => simp [slotLocs]

theorem legendHandles_ok_of_covered {palette : List (String × Color)} :
    ∀ (hues : List String), (∀ h ∈ hues, (palette.lookup h).isSome) →
      ∃ l, legendHandles palette hues = .ok l := by
  intro hues
  induction hues with
  | nil =>
    intro _
    exact ⟨[], rfl⟩
  | cons hue hs ih =>
    intro hcov
    rcases Option.isSome_iff_exists.mp
      (hcov hue (List.mem_cons_self hue hs)) with ⟨c, hc⟩
    rcases ih (fun h hm => hcov h (List.mem_cons_of_mem hue hm)) with ⟨l, hl⟩
    refine ⟨(hue, c) :: l, ?_⟩
    simp only [legendHandles, hc, hl]
    rfl

/-! ### Locality of the stacking loop in the rows of one group -/

theorem lookupValue_congr {rows1 rows2 : List Row} {g : String}
    (h : rows1.filter (fun r => r.group == g) =
      rows2.filter (fun r => r.group == g)) (hue : String) :
    lookupValue rows1 g hue = lookupValue rows2 g hue := by
  unfold lookupValue
  have key : ∀ rows : List Row,
      rows.filter (fun r => r.group == g && r.hue == hue) =
        (rows.filter fun r => r.group == g).filter fun r => r.hue == hue := by
    intro rows
    induction rows with
    | nil => rfl
    | cons r rs ih =>
      by_cases h1 : r.group == g
      · by_cases h2 : r.hue == hue <;>
          simp [List.filter_cons, h1, h2, ih]
      · simp [List.filter_cons, h1, ih]
  rw [key rows1, key rows2, h]

theorem processHue_congr {rows1 rows2 : List Row}
    {palette : List (String × Color)} {g : String} {x : ℚ}
    {acc : StackState × List Segment} {hue : String}
    (hlv : lookupValue rows1 g hue = lookupValue rows2 g hue) :
    processHue rows1 palette g x acc hue =
      processHue rows2 palette g x acc hue := by
  unfold processHue
  rw [hlv]

theorem processHues_congr {rows1 rows2 : List Row}
    {palette : List (String × Color)} {g : String} {x : ℚ}
    (h : rows1.filter (fun r => r.group == g) =
      rows2.filter (fun r => r.group == g)) :
    ∀ (hues : List String) (acc : StackState × List Segment),
      processHues rows1 palette g x hues acc =
        processHues rows2 palette g x hues acc := by
  intro hues
  induction hues with
  | nil => intro acc; rfl
  | cons hue hs ih =>
    intro acc
    simp only [processHues, processHue_congr (lookupValue_congr h hue)]
    cases processHue rows2 palette g x acc hue with
    | error e => rfl
    | ok acc2 => exact ih acc2

/-! ### Characterizations of the empty cases -/

theorem minList_eq_none {l : List ℚ} : minList l = none ↔ l = [] := by
  cases l with
  | nil => simp [minList]
  | cons a as =>
    simp only [minList]
    cases minList as <;> simp

theorem maxList_eq_none {l : List ℚ} : maxList l = none ↔ l = [] := by
  cases l with
  | nil => simp [maxList]
  | cons a as =>
    simp only [maxList]
    cases maxList as <;> simp

theorem keyOrder_eq_nil {rows : List Row} : keyOrder rows = [] ↔ rows = [] := by
  unfold keyOrder
  constructor
  · intro h
    have hlen := (sortOrd_perm strLe ((rows.map Row.group).dedup)).length_eq
    rw [h] at hlen
    have hd : (rows.map Row.group).dedup = [] :=
      List.length_eq_zero.mp hlen.symm
    have hm : rows.map Row.group = [] := (List.dedup_eq_nil _).mp hd
    exact List.map_eq_nil_iff.mp hm
  · intro h
    subst h
    rfl

theorem groupbySum_eq_nil {proj : Row → Option ℚ} {rows : List Row} :
    groupbySum proj rows = [] ↔ rows = [] := by
  unfold groupbySum
  rw [List.map_eq_nil_iff]
  exact keyOrder_eq_nil

theorem group_neg_max_none_iff {rows : List Row} :
    group_neg_max rows = none ↔ ∀ r ∈ rows, 0 ≤ r.value.getD 0 := by
  unfold group_neg_max
  rw [minList_eq_none, List.map_eq_nil_iff, groupbySum_eq_nil,
    List.filter_eq_nil_iff]
  constructor
  · intro h r hr
    have h2 := h r hr
    unfold negValue at h2
    cases hv : r.value with
    | none => simp
    | some v =>
      rw [hv] at h2
      simp only [Option.getD_some]
      by_contra hlt
      exact h2 (by simp [lt_of_not_le hlt])
  · intro h r hr
    have h2 := h r hr
    unfold negValue
    cases hv : r.value with
    | none => simp
    | some v =>
      rw [hv] at h2
      simp only [Option.getD_some] at h2
      simp [not_lt_of_le h2]

/-! ### Inversion of a successful `plot_stacked_barplot` call -/

theorem plot_ok_inv {rows : List Row} {hue_order : List String}
    {palette : List (String × Color)} {share : Bool} {l : Layout}
    (h : plot_stacked_barplot rows hue_order palette share = .ok l) :
    ∃ acc legend a b lo hi,
      processGroups rows palette hue_order
        (stacked_group_order (if share then Row.base else Row.value) rows)
        (-(1/2)) = .ok acc ∧
      legendHandles palette hue_order = .ok legend ∧
      acc.locs.head? = some a ∧ acc.locs.getLast? = some b ∧
      ylimOf (group_pos_max rows) (group_neg_max rows) = (some lo, some hi) ∧
      l = { group_order :=
              stacked_group_order (if share then Row.base else Row.value) rows
            group_locs := acc.locs
            segments := acc.segments
            finalStates := acc.states
            legend := legend
            xlim := (a - 1/2, b + 1/2)
            ylim := (some lo, some hi)
            netPatches := acc.nets.map
              (netPatchOf
                (stacked_group_sums (if share then Row.base else Row.value)
                  rows)
                (stacked_group_order (if share then Row.base else Row.value)
                  rows)
                (spanOf (some lo, some hi))) } := by
  unfold plot_stacked_barplot at h
  cases hpg : processGroups rows palette hue_order
      (stacked_group_order (if share then Row.base else Row.value) rows)
      (-(1/2)) with
  | error e =>
    simp only [hpg] at h
    exact absurd h (by simp)
  | ok acc =>
    simp only [hpg] at h
    cases hlh : legendHandles palette hue_order with
    | error e =>
      simp only [hlh] at h
      exact absurd h (by simp)
    | ok legend =>
      simp only [hlh] at h
      cases hhd : acc.locs.head? with
      | none =>
        cases hlast : acc.locs.getLast? with
        | none =>
          simp only [hhd, hlast] at h
          exact absurd h (by simp)
        | some b =>
          simp only [hhd, hlast] at h
          exact absurd h (by simp)
      | some a =>
        cases hlast : acc.locs.getLast? with
        | none =>
          simp only [hhd, hlast] at h
          exact absurd h (by simp)
        | some b =>
          simp only [hhd, hlast] at h
          cases hy : ylimOf (group_pos_max rows) (group_neg_max rows) with
          | mk y1 y2 =>
            cases y1 with
            | none =>
              cases y2 with
              | none =>
                simp only [hy] at h
                exact absurd h (by simp)
              | some hi =>
                simp only [hy] at h
                exact absurd h (by simp)
            | some lo =>
              cases y2 with
              | none =>
                simp only [hy] at h
                exact absurd h (by simp)
              | some hi =>
                simp only [hy, Except.ok.injEq] at h
                exact ⟨acc, legend, a, b, lo, hi, rfl, rfl, hhd, hlast, rfl,
                  h.symm⟩

theorem ylimOf_some (p : ℚ) (gneg : Option ℚ) :
    ∃ lo hi, ylimOf (some p) gneg = (some lo, some hi) := by
  cases gneg with
  | none => exact ⟨_, _, rfl⟩
  | some n => exact ⟨_, _, rfl⟩

theorem plot_ok_of_covered {rows : List Row} {hue_order : List String}
    {palette : List (String × Color)} {share : Bool}
    (hcov : ∀ h ∈ hue_order, (palette.lookup h).isSome) (hne : rows ≠ [])
    (hpos : group_pos_max rows ≠ none) :
    ∃ l, plot_stacked_barplot rows hue_order palette share = .ok l := by
  rcases @processGroups_ok_of_covered rows palette hue_order hcov
    (stacked_group_order (if share then Row.base else Row.value) rows)
    (-(1/2)) with ⟨acc, hacc⟩
  rcases legendHandles_ok_of_covered hue_order hcov with ⟨legend, hleg⟩
  rcases processGroups_ok_inv _ _ _ hacc with ⟨hlocs, _, _⟩
  have horder_ne : stacked_group_order
      (if share then Row.base else Row.value) rows ≠ [] :=
    stacked_group_order_ne_nil hne
  have hlen : 0 < (stacked_group_order
      (if share then Row.base else Row.value) rows).length :=
    List.length_pos.mpr horder_ne
  have hlocs_ne : acc.locs ≠ [] := by
    rw [hlocs]
    exact slotLocs_ne_nil hlen
  obtain ⟨a, ha⟩ : ∃ a, acc.locs.head? = some a := by
    cases hl : acc.locs with
    | nil => exact absurd hl hlocs_ne
    | cons y ys => exact ⟨y, rfl⟩
  obtain ⟨b, hb⟩ : ∃ b, acc.locs.getLast? = some b :=
    Option.isSome_iff_exists.mp (List.getLast?_isSome.mpr hlocs_ne)
  obtain ⟨p, hp⟩ : ∃ p, group_pos_max rows = some p := by
    cases hgp : group_pos_max rows with
    | none => exact absurd hgp hpos
    | some p => exact ⟨p, rfl⟩
  obtain ⟨lo, hi, hy⟩ := ylimOf_some p (group_neg_max rows)
  cases hres : plot_stacked_barplot rows hue_order palette share with
  | ok l => exact ⟨l, rfl⟩
  | error e =>
    unfold plot_stacked_barplot at hres
    rw [hp] at hres
    simp only [hacc, hleg, ha, hb, hy] at hres
    exact absurd hres (by simp)

theorem netPatchOf_centerY (sums : List (String × ℚ)) (order : List String)
    (span : Option ℚ) (g : String) :
    (netPatchOf sums order span g).centerY =
      span.map fun _ => (sums.lookup g).getD 0 := by
  cases span with
  | none => rfl
  | some s =>
    show some (((sums.lookup g).getD 0) - (5/1000) * s + ((1/100) * s) / 2) =
      some ((sums.lookup g).getD 0)
    congr 1
    ring

/-! ### Lemmas about the share computation and the per-capita builder -/

theorem gasPos_iff {r : GasRow} :
    gasPos r = true ↔ ∃ v, r.value = some v ∧ 0 < v := by
  unfold gasPos
  cases hv : r.value with
  | none => simp
  | some v => simp

theorem gas_country_total_filter_pos {rows : List GasRow} {r0 : GasRow}
    (hmem : r0 ∈ rows.filter gasPos) :
    0 < gas_country_total (rows.filter gasPos) r0.country_code := by
  unfold gas_country_total
  apply List.sum_pos
  · intro a ha
    rcases List.mem_map.mp ha with ⟨r, hr, rfl⟩
    have hp : gasPos r = true :=
      (List.mem_filter.mp (List.mem_filter.mp hr).1).2
    rcases gasPos_iff.mp hp with ⟨v, hv, hpos⟩
    rw [hv]
    simpa using hpos
  · intro hnil
    have hmem2 : r0.value.getD 0 ∈
        (((rows.filter gasPos).filter
          fun r => r.country_code == r0.country_code).map
          fun r => r.value.getD 0) :=
      List.mem_map_of_mem _ (List.mem_filter.mpr ⟨hmem, by simp⟩)
    rw [hnil] at hmem2
    exact absurd hmem2 (List.not_mem_nil _)

theorem lookup_map_self (f : String → Option ℚ) :
    ∀ (l : List String) (c : String),
      (l.map fun x => (x, f x)).lookup c =
        if c ∈ l then some (f c) else none := by
  intro l
  induction l with
  | nil => intro c; simp
  | cons a as ih =>
    intro c
    by_cases hca : c = a
    · subst hca
      simp [List.lookup]
    · have hbeq : (c == a) = false := beq_eq_false_iff_ne.mpr hca
      simp only [List.map_cons, List.lookup, hbeq, ih c]
      by_cases hc : c ∈ as
      · rw [if_pos hc, if_pos (List.mem_cons_of_mem a hc)]
      · rw [if_neg hc, if_neg (by
          intro h
          rcases List.mem_cons.mp h with h2 | h2
          · exact hca h2
          · exact hc h2)]

/-! ### The claims -/

/-- C1: for every group the stack-keys are processed in the supplied stack
order with accumulators `above` and `below` both initialised to 0; a
drawable value `v < 0` is drawn with base `below + v` and height `-v`, after
which `below` becomes `below + v`; a drawable value `v ≥ 0` is drawn with
base `above` and height `v`, after which `above` becomes `above + v`.  For
the values [5, -3, 2, -1] in stack order the drawn segments are
(base 0, height 5), (base -3, height 3), (base 5, height 2),
(base -4, height 1) with final `above` = 7 and `below` = -4. -/
theorem C1_stacking_accumulators :
    (∀ (rows : List Row) (palette : List (String × Color)) (g : String)
      (x : ℚ) (st : StackState) (segs : List Segment) (hue : String)
      (v : ℚ) (c : Color),
      lookupValue rows g hue = some v → palette.lookup hue = some c →
      processHue rows palette g x (st, segs) hue =
        (if v < 0 then
          .ok (⟨st.above, st.below + v⟩,
            segs ++ [⟨x, st.below + v, -v, 4/5, c⟩])
        else
          .ok (⟨st.above + v, st.below⟩,
            segs ++ [⟨x, st.above, v, 4/5, c⟩]))) ∧
    processHues stackExampleRows stackExamplePalette "G" 0 stackExampleHues
      (⟨0, 0⟩, []) =
      .ok (⟨7, -4⟩,
        [⟨0, 0, 5, 4/5, 0⟩, ⟨0, -3, 3, 4/5, 1⟩, ⟨0, 5, 2, 4/5, 2⟩,
         ⟨0, -4, 1, 4/5, 3⟩]) := by
  constructor
  · intro rows palette g x st segs hue v c hv hc
    exact processHue_of_some hv hc
  · decide

/-- C1 witness: the theorem applied to the second stack-key of the worked
example (value -3 at accumulators above = 5, below = 0). -/
theorem C1_stacking_accumulators_witness :
    processHue stackExampleRows stackExamplePalette "G" 0
      (⟨5, 0⟩, []) "b" = .ok (⟨5, -3⟩, [⟨0, -3, 3, 4/5, 1⟩]) := by
  have h := C1_stacking_accumulators.1 stackExampleRows stackExamplePalette
    "G" 0 ⟨5, 0⟩ [] "b" (-3) 1 (by decide) (by decide)
  rw [if_pos (by norm_num : (-3 : ℚ) < 0)] at h
  simpa using h

/-- C2 counterexample: for the table `tieRows`, whose two groups A and B are
encountered in the order A, B and have equal sums, the spec's ordering
(descending with ties in encounter order) yields [A, B] while the code's
groupby + descending value sort yields [B, A]: ties do not follow table
encounter order. -/
theorem C2_group_order_counterexample :
    spec_group_order Row.value tieRows = ["A", "B"] ∧
    stacked_group_order Row.value tieRows = ["B", "A"] ∧
    stacked_group_order Row.value tieRows ≠
      spec_group_order Row.value tieRows := by
  refine ⟨by decide, by decide, by decide⟩

/-- C2 (amended): for every input table and either ordering column, the
group order is a descending sort of the per-group sums — strictly
descending on the sums with ties broken by strictly descending group key
(pandas groupby lists keys ascending and the descending value sort reverses
the tie order), not by table encounter order — and it contains exactly the
groups occurring in the table. -/
theorem C2_group_order_descending (proj : Row → Option ℚ) (rows : List Row) :
    (stacked_group_sums proj rows).Pairwise
      (fun p q => q.2 < p.2 ∨ (q.2 = p.2 ∧ strLt q.1 p.1 = true)) ∧
    ∀ g, g ∈ stacked_group_order proj rows ↔ g ∈ rows.map Row.group :=
  ⟨stacked_group_sums_pairwise proj rows, fun _ => mem_stacked_group_order⟩

/-- C2 witness: the amended ordering theorem instantiated at the tied
two-group table. -/
theorem C2_group_order_descending_witness :
    (stacked_group_sums Row.value tieRows).Pairwise
      (fun p q => q.2 < p.2 ∨ (q.2 = p.2 ∧ strLt q.1 p.1 = true)) ∧
    ∀ g, g ∈ stacked_group_order Row.value tieRows ↔
      g ∈ tieRows.map Row.group :=
  C2_group_order_descending Row.value tieRows

/-- C5: a (group, stack-key) pair with no matching record, with several
matching records (an ambiguous pandas Series), or whose unique record has a
missing value, draws no segment and leaves both accumulators unchanged; and
the processing of a group depends only on that group's rows, so such a skip
never changes any other group's accumulators. -/
theorem C5_skip_missing :
    (∀ (rows : List Row) (palette : List (String × Color)) (g : String)
      (x : ℚ) (acc : StackState × List Segment) (hue : String),
      ((rows.filter fun r => r.group == g && r.hue == hue) = [] ∨
        1 < (rows.filter fun r => r.group == g && r.hue == hue).length ∨
        (∃ r, (rows.filter fun r => r.group == g && r.hue == hue) = [r] ∧
          r.value = none)) →
      processHue rows palette g x acc hue = .ok acc) ∧
    (∀ (rows1 rows2 : List Row) (palette : List (String × Color))
      (g : String) (x : ℚ) (hues : List String)
      (acc : StackState × List Segment),
      rows1.filter (fun r => r.group == g) =
        rows2.filter (fun r => r.group == g) →
      processHues rows1 palette g x hues acc =
        processHues rows2 palette g x hues acc) := by
  constructor
  · intro rows palette g x acc hue hcases
    have hnone : lookupValue rows g hue = none := by
      unfold lookupValue
      rcases hcases with h | h | ⟨r, hr, hv⟩
      · rw [h]
      · cases hf : rows.filter fun r => r.group == g && r.hue == hue with
        | nil => rfl
        | cons r rs =>
          cases rs with
          | nil =>
            rw [hf] at h
            simp at h
          | cons r2 rs2 => rfl
      · rw [hr]
        show r.value = none
        exact hv
    exact processHue_of_none hnone
  · intro rows1 rows2 palette g x hues acc h
    exact processHues_congr h hues acc

/-- C5 witness: the theorem applied to the pair (B, h1) of
`emptyGroupRows`, whose unique record has a missing value: the accumulators
(3, -2) are unchanged and nothing is drawn. -/
theorem C5_skip_missing_witness :
    processHue emptyGroupRows h12Palette "B" 0 (⟨3, -2⟩, []) "h1" =
      .ok (⟨3, -2⟩, []) :=
  C5_skip_missing.1 emptyGroupRows h12Palette "B" 0 (⟨3, -2⟩, []) "h1"
    (Or.inr (Or.inr ⟨⟨"B", "h1", none, none⟩, by decide, rfl⟩))

/-- C3: the y-limits are `(-0.005 * group_pos_max, 1.02 * group_pos_max)`
when no group has any negative total (equivalently, `group_neg_max` is
missing, i.e. no row has a negative value), and otherwise, with
range = `group_pos_max - group_neg_max`,
`(group_neg_max - 0.01 * range, group_pos_max + 0.01 * range)`; the layout's
ylim is exactly `ylimOf (group_pos_max rows) (group_neg_max rows)`;
concretely, all-positive sums with maximum 100 give (-0.5, 102.0) and
pos = 100, neg = -20 give (-21.2, 101.2). -/
theorem C3_axis_ylimits :
    (∀ rows : List Row,
      group_neg_max rows = none ↔ ∀ r ∈ rows, 0 ≤ r.value.getD 0) ∧
    (∀ (rows : List Row) (hue_order : List String)
      (palette : List (String × Color)) (share : Bool) (l : Layout),
      plot_stacked_barplot rows hue_order palette share = .ok l →
      l.ylim = ylimOf (group_pos_max rows) (group_neg_max rows)) ∧
    (∀ p : ℚ, ylimOf (some p) none =
      (some (-(5/1000) * p), some ((102/100) * p))) ∧
    (∀ p n : ℚ, ylimOf (some p) (some n) =
      (some (n - (1/100) * (p - n)), some (p + (1/100) * (p - n)))) ∧
    (plot_stacked_barplot posLimitRows ["h1", "h2"] h12Palette
        false).toOption.map Layout.ylim =
      some (some (-(1/2)), some 102) ∧
    (plot_stacked_barplot mixedLimitRows ["h1", "h2"] h12Palette
        false).toOption.map Layout.ylim =
      some (some (-(106/5)), some (506/5)) := by
  refine ⟨fun rows => group_neg_max_none_iff, ?_, fun p => rfl,
    fun p n => rfl, by decide, by decide⟩
  intro rows hue_order palette share l h
  rcases plot_ok_inv h with ⟨acc, legend, a, b, lo, hi, _, _, _, _, hy, hl⟩
  rw [hl]
  exact hy.symm

/-- C3 witness: the theorem's missing-negative-extent criterion applied to
the all-positive table `posLimitRows`. -/
theorem C3_axis_ylimits_witness : group_neg_max posLimitRows = none :=
  (C3_axis_ylimits.1 posLimitRows).mpr (by decide)

/-- C9 counterexample: on `allMissingRows` — a nonempty table whose single
group A has only a missing value, with a covering palette — the claim
demands that A appears on the axis with an empty bar and no error, but
`group_pos_max` is `NaN` (no strictly positive value exists), both y-limits
are `NaN`, and `ax.set_ylim` raises `ValueError`: the call errors even
though the group loop had assigned A its x-position. -/
theorem C9_group_positions_counterexample :
    plot_stacked_barplot allMissingRows ["h1"] [("h1", 0)] false =
      .error .valueError := by
  decide

/-- C9 (amended): with a palette covering the stack order, a nonempty
table, and at least one record carrying a strictly positive value (so that
`group_pos_max` is defined and `set_ylim` accepts the limits), the call
returns a layout (no error) in which every group of the group order —
including a group all of whose values are missing — receives an
x-position, the number of x-positions equals the number of groups, and the
i-th x-position (0-indexed) is exactly -0.5 + i; without a strictly
positive value the call raises the `ValueError` of `set_ylim` even though
the x-positions were assigned. -/
theorem C9_group_positions :
    ∀ (rows : List Row) (hue_order : List String)
      (palette : List (String × Color)) (share : Bool),
      (∀ h ∈ hue_order, (palette.lookup h).isSome) → rows ≠ [] →
      group_pos_max rows ≠ none →
      ∃ l, plot_stacked_barplot rows hue_order palette share = .ok l ∧
        l.group_order =
          stacked_group_order (if share then Row.base else Row.value) rows ∧
        l.group_locs.length = l.group_order.length ∧
        ∀ i, i < l.group_locs.length →
          l.group_locs[i]? = some (-(1/2) + (i : ℚ)) := by
  intro rows hue_order palette share hcov hne hpos
  rcases @plot_ok_of_covered rows hue_order palette share hcov hne hpos
    with ⟨l, hl⟩
  rcases plot_ok_inv hl with
    ⟨acc, legend, a, b, lo, hi, hacc, hleg, hhd, hlast, hy, hrec⟩
  rcases processGroups_ok_inv _ _ _ hacc with ⟨hlocs, hstates, hnets⟩
  have hgl : l.group_locs = acc.locs := by rw [hrec]
  have hgo : l.group_order =
      stacked_group_order (if share then Row.base else Row.value) rows := by
    rw [hrec]
  refine ⟨l, hl, hgo, ?_, ?_⟩
  · rw [hgl, hlocs, slotLocs_length, hgo]
  · intro i hi
    rw [hgl, hlocs] at hi ⊢
    rw [slotLocs_length] at hi
    exact slotLocs_getElem _ i _ hi

/-- C9 witness: the amended theorem applied to `emptyGroupRows`, whose
group B has only a missing value and still receives the second slot (group
A carries the strictly positive value 5). -/
theorem C9_group_positions_witness :
    ∃ l, plot_stacked_barplot emptyGroupRows ["h1"] h12Palette false =
        .ok l ∧
      l.group_order = stacked_group_order Row.value emptyGroupRows ∧
      l.group_locs.length = l.group_order.length ∧
      ∀ i, i < l.group_locs.length →
        l.group_locs[i]? = some (-(1/2) + (i : ℚ)) :=
  C9_group_positions emptyGroupRows ["h1"] h12Palette false
    (by decide) (by decide) (by decide)

/-- C10: an input table with no rows yields an empty group order, and the
x-limit step, which indexes `group_locs[0]` and `group_locs[-1]`, fails
with an `IndexError` (shown here with any palette covering the stack order,
so that no `KeyError` pre-empts the index failure): a nonempty group set is
necessary for the function to return a layout. -/
theorem C10_empty_table_index_error :
    ∀ (hue_order : List String) (palette : List (String × Color))
      (share : Bool),
      (∀ h ∈ hue_order, (palette.lookup h).isSome) →
      stacked_group_order (if share then Row.base else Row.value) [] = [] ∧
      plot_stacked_barplot [] hue_order palette share =
        .error .indexError := by
  intro hue_order palette share hcov
  refine ⟨rfl, ?_⟩
  rcases legendHandles_ok_of_covered hue_order hcov with ⟨legend, hleg⟩
  unfold plot_stacked_barplot
  simp only [hleg]
  rfl

/-- C10 witness: the theorem applied to the singleton stack order h1 with
its covering palette. -/
theorem C10_empty_table_index_error_witness :
    stacked_group_order Row.value [] = [] ∧
    plot_stacked_barplot [] ["h1"] h12Palette false = .error .indexError :=
  C10_empty_table_index_error ["h1"] h12Palette false (by decide)

/-- C8: whenever some stack-key of the supplied stack order (every one of
which appears in the legend, and in particular any one with a drawable
value) is missing from the palette, the call fails with a `KeyError`
identifying a missing stack-key — no default color is substituted and no
layout is returned. -/
theorem C8_missing_palette_key :
    ∀ (rows : List Row) (hue_order : List String)
      (palette : List (String × Color)) (share : Bool) (h : String),
      h ∈ hue_order → palette.lookup h = none →
      ∃ k, plot_stacked_barplot rows hue_order palette share =
          .error (.keyError k) ∧ k ∈ hue_order ∧ palette.lookup k = none := by
  intro rows hue_order palette share h hm hnone
  cases hpg : processGroups rows palette hue_order
      (stacked_group_order (if share then Row.base else Row.value) rows)
      (-(1/2)) with
  | error e =>
    rcases processGroups_error_inv _ _ _ hpg with ⟨k, hk1, hk2, hk3⟩
    refine ⟨k, ?_, hk2, hk3⟩
    subst hk1
    unfold plot_stacked_barplot
    simp only [hpg]
  | ok acc =>
    rcases legendHandles_error_of_missing hue_order h hm hnone
      with ⟨k, hk1, hk2, hk3⟩
    refine ⟨k, ?_, hk2, hk3⟩
    unfold plot_stacked_barplot
    simp only [hpg, hk1]

/-- C8 witness: the theorem applied to the worked example with an empty
palette and the stack order [a]. -/
theorem C8_missing_palette_key_witness :
    ∃ k, plot_stacked_barplot stackExampleRows ["a"] [] false =
        .error (.keyError k) ∧ k ∈ ["a"] ∧
        (List.lookup k ([] : List (String × Color))) = none :=
  C8_missing_palette_key stackExampleRows ["a"] [] false "a"
    (by decide) (by decide)

/-- C4 counterexample: for `netPatchRows` (group G has value -5 on the sole
stack-key h1 of the stack order and value 3 on a stack-key h2 outside it),
the final accumulators are above = 0, below = -5, a marker is produced, but
its vertical centre is the group's column sum -2, not
above + below = -5: the marker is not centred on the accumulators' net
total. -/
theorem C4_net_marker_counterexample :
    (plot_stacked_barplot netPatchRows ["h1"] [("h1", 0)] false).toOption.map
        (fun l => (l.finalStates, l.netPatches.map NetPatch.centerY)) =
      some ([("G", ⟨0, -5⟩)], [some (-2)]) ∧
    ((0 : ℚ) + (-5) ≠ -2) :=
  ⟨by decide, by norm_num⟩

/-- C4 (amended): a net-emissions marker is produced exactly for the groups
whose final `below` accumulator is nonzero; every marker has width 0.2, is
horizontally centred on its group's x-position -0.5 + index, has height one
percent of the y-axis span, and is vertically centred on the group's entry
of the descending per-group sums of the ordering column (which equals
`above + below` only when the group's drawn segments exhaust its records). -/
theorem C4_net_marker_geometry :
    ∀ (rows : List Row) (hue_order : List String)
      (palette : List (String × Color)) (share : Bool) (l : Layout),
      plot_stacked_barplot rows hue_order palette share = .ok l →
      l.netPatches.map NetPatch.group =
        (l.finalStates.filter fun s => decide (s.2.below ≠ 0)).map
          Prod.fst ∧
      ∀ p ∈ l.netPatches,
        p.width = 1/5 ∧
        p.xLeft + p.width / 2 =
          -(1/2) + (l.group_order.indexOf p.group : ℚ) ∧
        p.height = l.span.map (fun s => (1/100) * s) ∧
        p.centerY = l.span.map fun _ =>
          ((stacked_group_sums (if share then Row.base else Row.value)
            rows).lookup p.group).getD 0 := by
  intro rows hue_order palette share l hpl
  rcases plot_ok_inv hpl with
    ⟨acc, legend, a, b, lo, hi, hacc, hleg, _, _, hy, hrec⟩
  rcases processGroups_ok_inv _ _ _ hacc with ⟨_, hstates, hnets⟩
  have hnp : l.netPatches = acc.nets.map
      (netPatchOf
        (stacked_group_sums (if share then Row.base else Row.value) rows)
        (stacked_group_order (if share then Row.base else Row.value) rows)
        (spanOf (some lo, some hi))) := by
    rw [hrec]
  have hfs : l.finalStates = acc.states := by rw [hrec]
  have hgo : l.group_order =
      stacked_group_order (if share then Row.base else Row.value) rows := by
    rw [hrec]
  have hspan : l.span = spanOf (some lo, some hi) := by
    rw [hrec]
    rfl
  constructor
  · rw [hnp, List.map_map, hfs, hnets,
      show (NetPatch.group ∘ netPatchOf
        (stacked_group_sums (if share then Row.base else Row.value) rows)
        (stacked_group_order (if share then Row.base else Row.value) rows)
        (spanOf (some lo, some hi))) = id
        from rfl,
      List.map_id]
  · intro p hp
    rw [hnp] at hp
    rcases List.mem_map.mp hp with ⟨g, hg, rfl⟩
    refine ⟨rfl, ?_, ?_, ?_⟩
    · rw [hgo]
      show -(1/2) +
        ((stacked_group_order (if share then Row.base else Row.value)
          rows).indexOf g : ℚ) - 1/10 + (1/5) / 2 =
        -(1/2) +
        ((stacked_group_order (if share then Row.base else Row.value)
          rows).indexOf g : ℚ)
      ring
    · rw [hspan]
      rfl
    · rw [hspan]
      exact netPatchOf_centerY _ _ _ g

/-- C4 witness: the geometry theorem applied to the concrete layout of the
counterexample table. -/
theorem C4_net_marker_geometry_witness :
    netPatchLayout.netPatches.map NetPatch.group =
      (netPatchLayout.finalStates.filter
        fun s => decide (s.2.below ≠ 0)).map Prod.fst :=
  (C4_net_marker_geometry netPatchRows ["h1"] [("h1", 0)] false
    netPatchLayout (by decide)).1

/-- C6: in share mode the records are first restricted to strictly positive
values, each country's total is computed over the restricted set, and every
record's share is 100 * value / country_total; for one country with
positive values [10, 20, 70] the shares are exactly [10, 20, 70]; every
output record has a strictly positive value and a strictly positive
denominator (so no division by zero can occur); and a country whose
restricted total is zero has no output records at all, its shares being
absent/missing rather than a failure. -/
theorem C6_share_computation :
    ((create_emissions_by_gas_share shareExampleRows).map ShareRow.share =
      [10, 20, 70]) ∧
    (∀ (rows : List GasRow) (r : ShareRow),
      r ∈ create_emissions_by_gas_share rows →
      ∃ v, r.value = some v ∧ 0 < v ∧ 0 < r.country_total_emissions ∧
        r.share = 100 * v / r.country_total_emissions) ∧
    (∀ (rows : List GasRow) (c : String),
      gas_country_total (rows.filter gasPos) c = 0 →
      (create_emissions_by_gas_share rows).filter
        (fun r => r.country_code == c) = []) := by
  refine ⟨by decide, ?_, ?_⟩
  · intro rows r hr
    unfold create_emissions_by_gas_share at hr
    rcases List.mem_map.mp hr with ⟨r0, hr0, rfl⟩
    have hp : gasPos r0 = true := (List.mem_filter.mp hr0).2
    rcases gasPos_iff.mp hp with ⟨v, hv, hpos⟩
    refine ⟨v, hv, hpos, ?_, ?_⟩
    · show 0 < gas_country_total (rows.filter gasPos) r0.country_code
      exact gas_country_total_filter_pos hr0
    · show (100 : ℚ) * r0.value.getD 0 /
          gas_country_total (rows.filter gasPos) r0.country_code =
        100 * v / gas_country_total (rows.filter gasPos) r0.country_code
      rw [hv]
      rfl
  · intro rows c htot
    by_contra hne
    obtain ⟨sr, hsr⟩ := List.exists_mem_of_ne_nil _ hne
    have hsr2 := List.mem_filter.mp hsr
    have hc : sr.country_code = c := by
      have := hsr2.2
      simpa using this
    rcases List.mem_map.mp (by
      have := hsr2.1
      unfold create_emissions_by_gas_share at this
      exact this) with ⟨r0, hr0, hr0eq⟩
    have hcc : r0.country_code = c := by
      rw [← hc, ← hr0eq]
    have hpos := gas_country_total_filter_pos hr0
    rw [hcc, htot] at hpos
    exact absurd hpos (lt_irrefl 0)

/-- C6 witness: the positivity part of the theorem applied to the first
output record of the worked share example (value 10, total 100). -/
theorem C6_share_computation_witness :
    ∃ v, (⟨"AT", "CO2", some 10, 100, 10⟩ : ShareRow).value = some v ∧
      0 < v ∧
      0 < (⟨"AT", "CO2", some 10, 100, 10⟩ : ShareRow).country_total_emissions ∧
      (⟨"AT", "CO2", some 10, 100, 10⟩ : ShareRow).share =
        100 * v /
          (⟨"AT", "CO2", some 10, 100, 10⟩ :
            ShareRow).country_total_emissions :=
  C6_share_computation.2.1 shareExampleRows ⟨"AT", "CO2", some 10, 100, 10⟩
    (by decide)

/-- C7: every output row of the per-capita builder carries the input
country code normalised through the remapping table (the identity on codes
absent from it); its population is the external lookup of the normalised
code unless the code is in the exclusion list (then missing); and
emissions_per_capita equals 1,000,000 * emissions_value / population when
the population is present, and is missing otherwise. -/
theorem C7_emissions_per_capita :
    ∀ (pop_lookup : String → Option ℚ) (excludes : List String)
      (mappings : List (String × String)) (rows : List EmRow),
      (create_emissions_per_capita pop_lookup excludes mappings rows).length
        = rows.length ∧
      ∀ (i : Nat) (row : EmRow) (out : EmRowPC),
        rows[i]? = some row →
        (create_emissions_per_capita pop_lookup excludes mappings rows)[i]? =
          some out →
        out.country_code =
          (mappings.lookup row.country_code).getD row.country_code ∧
        out.value = row.value ∧
        out.population = (if out.country_code ∈ excludes then none
          else pop_lookup out.country_code) ∧
        out.emissions_per_capita =
          (match out.population with
          | some p => row.value.map fun v => 1000000 * v / p
          | none => none) := by
  intro pop_lookup excludes mappings rows
  constructor
  · simp [create_emissions_per_capita]
  · intro i row out hrow hout
    simp only [create_emissions_per_capita, List.getElem?_map, hrow,
      Option.map_some'] at hout
    injection hout with hout2
    subst hout2
    refine ⟨rfl, rfl, ?_, rfl⟩
    have hrowmem : row ∈ rows := by
      rcases List.getElem?_eq_some.mp hrow with ⟨hlt, hget⟩
      rw [← hget]
      exact List.getElem_mem hlt
    show ((populationDict pop_lookup excludes
        (rows.map (remapCode mappings))).lookup
          ((remapCode mappings row).country_code)).getD none =
      if (remapCode mappings row).country_code ∈ excludes then none
      else pop_lookup ((remapCode mappings row).country_code)
    unfold populationDict
    rw [lookup_map_self]
    by_cases hce : (remapCode mappings row).country_code ∈ excludes
    · have hnot : (remapCode mappings row).country_code ∉
          (((rows.map (remapCode mappings)).filter fun r =>
            !excludes.contains r.country_code).map
            EmRow.country_code).dedup := by
        intro hmem
        rcases List.mem_map.mp (List.mem_dedup.mp hmem) with ⟨r2, hr2, hr2c⟩
        have hb := (List.mem_filter.mp hr2).2
        have hni : r2.country_code ∉ excludes := by simpa using hb
        rw [hr2c] at hni
        exact hni hce
      rw [if_neg hnot, if_pos hce]
      rfl
    · have hmem : (remapCode mappings row).country_code ∈
          (((rows.map (remapCode mappings)).filter fun r =>
            !excludes.contains r.country_code).map
            EmRow.country_code).dedup := by
        apply List.mem_dedup.mpr
        apply List.mem_map_of_mem EmRow.country_code
        apply List.mem_filter.mpr
        refine ⟨List.mem_map_of_mem (remapCode mappings) hrowmem, ?_⟩
        simpa using hce
      rw [if_pos hmem, if_neg hce]
      rfl

/-- C7 witness: the theorem applied to a one-row table with the legacy code
EL, the mapping EL to GR, the exclusion list [EU27], and a lookup knowing
only GR with population 10,000,000: the output row has code GR and
emissions_per_capita 1e6 * 50 / 1e7 = 5. -/
theorem C7_emissions_per_capita_witness :
    (⟨"GR", some 50, some 10000000, some 5⟩ : EmRowPC).country_code =
      ((([("EL", "GR")] : List (String × String)).lookup "EL").getD "EL") ∧
    (⟨"GR", some 50, some 10000000, some 5⟩ : EmRowPC).value = some 50 ∧
    (⟨"GR", some 50, some 10000000, some 5⟩ : EmRowPC).population =
      (if (⟨"GR", some 50, some 10000000, some 5⟩ : EmRowPC).country_code ∈
          ["EU27"] then none
        else demoPop
          (⟨"GR", some 50, some 10000000, some 5⟩ : EmRowPC).country_code) ∧
    (⟨"GR", some 50, some 10000000, some 5⟩ :
        EmRowPC).emissions_per_capita =
      (match (⟨"GR", some 50, some 10000000, some 5⟩ :
          EmRowPC).population with
      | some p => (some (50 : ℚ)).map fun v => 1000000 * v / p
      | none => none) :=
  (C7_emissions_per_capita demoPop ["EU27"] [("EL", "GR")] demoEmRows).2
    0 ⟨"EL", some 50⟩ ⟨"GR", some 50, some 10000000, some 5⟩
    (by decide) (by decide)

end EUEmissions
